import Mathlib

/-!
Verification of the tic-tac-toe agent simulator (`tic-tac-toe.py`).

The Python program is shallowly embedded: the board is a 3x3 list of lists of
naturals (the source's integer encoding `X = 0`, `O = 1`, `EMPTY = 2`), agents
and referees become pure functions, and `random.choice` becomes an explicit
choice index supplied as a parameter.  The minimax recursion, which in the
source terminates because each recursive call receives a strictly fuller
board, is embedded with an explicit structural fuel; the entry point supplies
the number of empty cells as fuel, and a stability lemma shows any fuel of at
least that size computes the same values.
-/

namespace TicTacToe

/-- Source constant `X = 0`. -/
def X : Nat := 0

/-- Source constant `O = 1`. -/
def O : Nat := 1

/-- Source constant `EMPTY = 2`. -/
def EMPTY : Nat := 2

/-- A `(row, col)` pair, from class `Coordinate`. -/
structure Coordinate where
  row : Nat
  col : Nat
deriving DecidableEq, Repr

/-- The board contents: `self.board`, a 3x3 list of lists of cell values. -/
abbrev Board := List (List Nat)

/-- A fresh all-`EMPTY` board, from `Board.__init__`. -/
def emptyBoard : Board :=
  [[EMPTY, EMPTY, EMPTY], [EMPTY, EMPTY, EMPTY], [EMPTY, EMPTY, EMPTY]]

/-- Read access `board[row][col]`.  Out-of-range reads (impossible in the
program, which always indexes within the 3x3 grid) are totalized to the
junk value `3`, which is neither a mark nor `EMPTY`. -/
def Board.cell (b : Board) (r c : Nat) : Nat :=
  (b.getD r []).getD c 3

/-- `Board.place`: `self.board[coordinate.row][coordinate.col] = player`. -/
def Board.place (b : Board) (co : Coordinate) (p : Nat) : Board :=
  b.set co.row ((b.getD co.row []).set co.col p)

/-- `Board.iter`: all cells in row-major order. -/
def Board.cells (b : Board) : List Nat :=
  b.flatten

/-- One entry of the histogram built by `board_histogram` (identical in all
agents and in the referee): how many cells hold the value `v`. -/
def histCount (b : Board) (v : Nat) : Nat :=
  (Board.cells b).count v

/-- The number of `EMPTY` cells, `hist[EMPTY]`. -/
def emptyCells (b : Board) : Nat :=
  histCount b EMPTY

/-- `check_win` (textually identical in `RandomAgent`, `OneStepAheadAgent`,
`MinimaxAgent`, `RegularReferee`, `NoPenaltiesReferee`): scan the three rows,
then the three columns, then the two diagonals, and return the cell value of
the first line whose three cells are equal, `EMPTY` if no line qualifies.
Note the source compares the three cells for plain equality without
excluding `EMPTY`, so an all-`EMPTY` line also returns from the scan. -/
def check_win (b : Board) : Nat :=
  if Board.cell b 0 0 = Board.cell b 0 1 ∧ Board.cell b 0 1 = Board.cell b 0 2 then
    Board.cell b 0 0
  else if Board.cell b 1 0 = Board.cell b 1 1 ∧ Board.cell b 1 1 = Board.cell b 1 2 then
    Board.cell b 1 0
  else if Board.cell b 2 0 = Board.cell b 2 1 ∧ Board.cell b 2 1 = Board.cell b 2 2 then
    Board.cell b 2 0
  else if Board.cell b 0 0 = Board.cell b 1 0 ∧ Board.cell b 1 0 = Board.cell b 2 0 then
    Board.cell b 0 0
  else if Board.cell b 0 1 = Board.cell b 1 1 ∧ Board.cell b 1 1 = Board.cell b 2 1 then
    Board.cell b 0 1
  else if Board.cell b 0 2 = Board.cell b 1 2 ∧ Board.cell b 1 2 = Board.cell b 2 2 then
    Board.cell b 0 2
  else if Board.cell b 0 0 = Board.cell b 1 1 ∧ Board.cell b 1 1 = Board.cell b 2 2 then
    Board.cell b 0 0
  else if Board.cell b 0 2 = Board.cell b 1 1 ∧ Board.cell b 1 1 = Board.cell b 2 0 then
    Board.cell b 0 2
  else
    EMPTY

/-- `free_spots` (identical in the three rule-respecting agents): the
coordinates of all `EMPTY` cells, rows outer, columns inner. -/
def free_spots (b : Board) : List Coordinate :=
  ((List.range 3).map fun r =>
    (List.range 3).filterMap fun c =>
      if Board.cell b r c = EMPTY then some ⟨r, c⟩ else none).flatten

/-- A proposed placement, from class `Move`. -/
structure Move where
  coordinate : Coordinate
  player : Nat
deriving DecidableEq, Repr

/-- The terminal classifications, from the `Judgement` enum. -/
inductive Judgement where
  | X_WINS
  | O_WINS
  | DRAW
  | X_PENALTY
  | O_PENALTY
deriving DecidableEq, Repr

/-- `RegularReferee.whose_turn`: `X` when the `O`-count is at least the
`X`-count, else `O`. -/
def whose_turn (b : Board) : Nat :=
  if histCount b X ≤ histCount b O then X else O

/-- Helper for the referee's first two checks: the move is present and does
not carry the mark `p`. -/
def badMark (m : Option Move) (p : Nat) : Bool :=
  match m with
  | some mv => mv.player != p
  | none => false

/-- Helper for the referee's occupied-cell checks: the move is present and
targets a cell that is not `EMPTY`. -/
def onOccupied (b : Board) (m : Option Move) : Bool :=
  match m with
  | some mv => Board.cell b mv.coordinate.row mv.coordinate.col != EMPTY
  | none => false

/-- `all(pos is not EMPTY for pos in board.iter())`. -/
def boardFull (b : Board) : Bool :=
  (Board.cells b).all fun v => v != EMPTY

/-- `RegularReferee.step`: the eleven-branch early-return chain; the Python
function falls off the end (implicitly returning `None`) when no branch
fires. -/
def RegularReferee.step (b : Board) (x_move o_move : Option Move) : Option Judgement :=
  if badMark x_move X then some .X_PENALTY
  else if badMark o_move O then some .O_PENALTY
  else if onOccupied b x_move then some .X_PENALTY
  else if onOccupied b o_move then some .O_PENALTY
  else if x_move.isSome && (whose_turn b == O) then some .X_PENALTY
  else if o_move.isSome && (whose_turn b == X) then some .O_PENALTY
  else if check_win b == X then some .X_WINS
  else if check_win b == O then some .O_WINS
  else if boardFull b && (check_win b == EMPTY) then some .DRAW
  else if x_move.isNone && (whose_turn b == X) then some .X_PENALTY
  else if o_move.isNone && (whose_turn b == O) then some .O_PENALTY
  else none

/-- `random.choice` over a list of coordinates, with the random draw modelled
as an explicit index `k`, reduced modulo the list length. -/
def randomChoice (k : Nat) (l : List Coordinate) : Coordinate :=
  l.getD (k % l.length) ⟨0, 0⟩

/-- `X if self.player == O else O` (`other_player` in the source). -/
def otherPlayer (p : Nat) : Nat :=
  if p = O then X else O

/-- `random.choice` over an arbitrary list, with the draw modelled as an
explicit index reduced modulo the list length. -/
def randomPick (k : Nat) (l : List α) (d : α) : α :=
  l.getD (k % l.length) d

/-- `NoRulesAgent.step`: a coin decides whether to move at all; when it
comes up it places at a uniformly random cell with a uniformly random mark,
never reading the board. -/
def NoRulesAgent.step (kt kr kc kp : Nat) (_player : Nat) (_b : Board) : Option Move :=
  let turn := randomPick kt [true, false] true
  if !turn then none
  else some ⟨⟨randomPick kr [0, 1, 2] 0, randomPick kc [0, 1, 2] 0⟩, randomPick kp [X, O] X⟩

/-- `RandomAgent.step`: the four pre-move checks in source order, then a
uniformly random free spot carrying the agent's own mark. -/
def RandomAgent.step (k : Nat) (player : Nat) (b : Board) : Option Move :=
  let winner := check_win b
  if winner = player then none
  else if winner ≠ EMPTY then none
  else if emptyCells b = 0 then none
  else if histCount b X ≤ histCount b O ∧ player = O then none
  else if histCount b O < histCount b X ∧ player = X then none
  else some ⟨randomChoice k (free_spots b), player⟩

/-- The first imagination loop of `OneStepAheadAgent.step`, placing mark `p`
at each candidate in turn on the scratch board, returning at the first
placement that `check_win` scores for `p`, and reverting the placement
otherwise. -/
def winScan (p : Nat) : List Coordinate → Board → Option Coordinate
  | [], _ => none
  | mv :: rest, ib =>
    let ib1 := Board.place ib mv p
    if check_win ib1 = p then some mv
    else winScan p rest (Board.place ib1 mv EMPTY)

/-- `OneStepAheadAgent.step`: the four pre-move checks, then win-in-one
search with the agent's own mark, then block-in-one search with the
opponent's mark, then a random free spot. -/
def OneStepAheadAgent.step (k : Nat) (player : Nat) (b : Board) : Option Move :=
  let winner := check_win b
  if winner = player then none
  else if winner ≠ EMPTY then none
  else if emptyCells b = 0 then none
  else if histCount b X ≤ histCount b O ∧ player = O then none
  else if histCount b O < histCount b X ∧ player = X then none
  else
    match winScan player (free_spots b) b with
    | some mv => some ⟨mv, player⟩
    | none =>
      match winScan (otherPlayer player) (free_spots b) b with
      | some mv => some ⟨mv, player⟩
      | none => some ⟨randomChoice k (free_spots b), player⟩

/-- `max` over the values of a nonempty Python dict; totalized with result
`0` on the empty list, which the program never reaches. -/
def listMax : List Int → Int
  | [] => 0
  | v :: vs => vs.foldl max v

/-- The body of the `for move in self.free_spots(board)` loop of
`MinimaxAgent.position_values`, with the recursive occurrence abstracted as
`rec`.  The loop threads the scratch board through: a placement scored as an
immediate win or a draw is carried over to the following iterations (the
source's `continue` skips the reverting `place(move, EMPTY)`), while the
recursive branch reverts its placement. -/
def pvLoop (rec : Board → Nat → List (Coordinate × Int)) (p : Nat) :
    List Coordinate → Board → List (Coordinate × Int)
  | [], _ => []
  | mv :: rest, ib =>
    let ib1 := Board.place ib mv p
    if check_win ib1 = p then
      (mv, 1) :: pvLoop rec p rest ib1
    else if free_spots ib1 = [] then
      (mv, 0) :: pvLoop rec p rest ib1
    else
      (mv, -(listMax ((rec ib1 (otherPlayer p)).map Prod.snd))) ::
        pvLoop rec p rest (Board.place ib1 mv EMPTY)

/-- `MinimaxAgent.position_values` with explicit structural fuel. -/
def pvF : Nat → Board → Nat → List (Coordinate × Int)
  | 0, _, _ => []
  | f + 1, b, p => pvLoop (pvF f) p (free_spots b) b

/-- `MinimaxAgent.position_values`: entered with the number of empty cells
as fuel, which is enough for the recursion (each recursive call receives a
board with strictly fewer empty cells). -/
def MinimaxAgent.position_values (b : Board) (p : Nat) : List (Coordinate × Int) :=
  pvF (emptyCells b) b p

/-- `MinimaxAgent.step`: the four pre-move checks, then a uniformly random
choice among the positions whose value attains the maximum. -/
def MinimaxAgent.step (k : Nat) (player : Nat) (b : Board) : Option Move :=
  let winner := check_win b
  if winner = player then none
  else if winner ≠ EMPTY then none
  else if emptyCells b = 0 then none
  else if histCount b X ≤ histCount b O ∧ player = O then none
  else if histCount b O < histCount b X ∧ player = X then none
  else
    let values := MinimaxAgent.position_values b player
    let hi := listMax (values.map Prod.snd)
    let cands := (values.filter fun e => e.2 == hi).map Prod.fst
    some ⟨randomChoice k cands, player⟩

/-- The move-application phase of `Simulator.step`: each submitted move is
placed on the board, `X`'s first, then `O`'s. -/
def applyMoves (b : Board) (xm om : Option Move) : Board :=
  let b1 := match xm with
    | some m => Board.place b m.coordinate m.player
    | none => b
  match om with
  | some m => Board.place b1 m.coordinate m.player
  | none => b1

/-- `Simulator.step` for given proposed moves: ask the referee first; on a
judgement the board is returned untouched, otherwise the moves are applied. -/
def Simulator.step (ref : Board → Option Move → Option Move → Option Judgement)
    (b : Board) (xm om : Option Move) : Option Judgement × Board :=
  match ref b xm om with
  | some j => (some j, b)
  | none => (none, applyMoves b xm om)

/-- `Simulator.run`: repeat `Simulator.step` until a judgement appears.  The
agents are modelled as functions of the step index and the current board
(the index lets an agent behave differently on every call, covering the
random draws), and the unbounded `while True` is given explicit fuel,
answering `none` when the fuel runs out before a judgement. -/
def Simulator.run (ref : Board → Option Move → Option Move → Option Judgement)
    (fx fo : Nat → Board → Option Move) : Nat → Nat → Board → Option Judgement
  | 0, _, _ => none
  | fuel + 1, i, b =>
    let xm := fx i b
    let om := fo i b
    match ref b xm om with
    | some j => some j
    | none => Simulator.run ref fx fo fuel (i + 1) (applyMoves b xm om)

/-- A `MinimaxAgent` game against itself under the strict referee, starting
from a fresh board, the two random streams `cx`, `co` supplying the
tie-breaking draws. -/
def minimaxGame (cx co : Nat → Nat) (fuel : Nat) : Option Judgement :=
  Simulator.run RegularReferee.step
    (fun i b => MinimaxAgent.step (cx i) X b)
    (fun i b => MinimaxAgent.step (co i) O b)
    fuel 0 emptyBoard

/-- A board of the regular 3x3 shape (the only shape the program ever
builds); exposing the nine cells for case analysis. -/
def ValidBoard (b : Board) : Prop :=
  ∃ a0 a1 a2 a3 a4 a5 a6 a7 a8 : Nat,
    b = [[a0, a1, a2], [a3, a4, a5], [a6, a7, a8]]

/-- The spec's notion of a completed line: one of the three rows, three
columns or two diagonals has all three cells equal to `p`. -/
def lineComplete (b : Board) (p : Nat) : Prop :=
  (Board.cell b 0 0 = p ∧ Board.cell b 0 1 = p ∧ Board.cell b 0 2 = p) ∨
  (Board.cell b 1 0 = p ∧ Board.cell b 1 1 = p ∧ Board.cell b 1 2 = p) ∨
  (Board.cell b 2 0 = p ∧ Board.cell b 2 1 = p ∧ Board.cell b 2 2 = p) ∨
  (Board.cell b 0 0 = p ∧ Board.cell b 1 0 = p ∧ Board.cell b 2 0 = p) ∨
  (Board.cell b 0 1 = p ∧ Board.cell b 1 1 = p ∧ Board.cell b 2 1 = p) ∨
  (Board.cell b 0 2 = p ∧ Board.cell b 1 2 = p ∧ Board.cell b 2 2 = p) ∨
  (Board.cell b 0 0 = p ∧ Board.cell b 1 1 = p ∧ Board.cell b 2 2 = p) ∨
  (Board.cell b 0 2 = p ∧ Board.cell b 1 1 = p ∧ Board.cell b 2 0 = p)

/-- The minimax value recurrence exactly as the spec words it: each free
cell is scored on the input board extended by that one placement only (+1
immediate win, 0 board-filling draw, otherwise the negated best reply),
with no state carried between the cells. -/
def spec_position_values : Nat → Board → Nat → List (Coordinate × Int)
  | 0, _, _ => []
  | f + 1, b, p =>
    (free_spots b).map fun mv =>
      let b1 := Board.place b mv p
      (mv,
        if check_win b1 = p then 1
        else if free_spots b1 = [] then 0
        else -(listMax ((spec_position_values f b1 (otherPlayer p)).map Prod.snd)))

/-- The referee's eleven conditions in source order, paired with the
judgement each one produces. -/
def refChecks (b : Board) (xm om : Option Move) : List (Bool × Judgement) :=
  [(badMark xm X, .X_PENALTY), (badMark om O, .O_PENALTY),
   (onOccupied b xm, .X_PENALTY), (onOccupied b om, .O_PENALTY),
   (xm.isSome && (whose_turn b == O), .X_PENALTY),
   (om.isSome && (whose_turn b == X), .O_PENALTY),
   (check_win b == X, .X_WINS), (check_win b == O, .O_WINS),
   (boardFull b && (check_win b == EMPTY), .DRAW),
   (xm.isNone && (whose_turn b == X), .X_PENALTY),
   (om.isNone && (whose_turn b == O), .O_PENALTY)]

/-- First-match evaluation of an ordered list of checks. -/
def firstMatch : List (Bool × Judgement) → Option Judgement
  | [] => none
  | (c, j) :: rest => if c then some j else firstMatch rest

instance (b : Board) (p : Nat) : Decidable (lineComplete b p) := by
  unfold lineComplete
  exact inferInstance

/-- C1: the win checker is claimed to return the mark of the first completed
line in scan order and `Empty` only when no line is complete.  The code
instead returns as soon as any line has three equal cells, including an
all-`EMPTY` line, so a board whose first row is empty while its second row
is a completed `X` line makes `check_win` answer `EMPTY`: the code
contradicts the claim (and its own purpose of detecting game over). -/
theorem C1_check_win_masked_row :
    lineComplete [[EMPTY, EMPTY, EMPTY], [X, X, X], [EMPTY, EMPTY, EMPTY]] X ∧
    X ≠ EMPTY ∧
    check_win [[EMPTY, EMPTY, EMPTY], [X, X, X], [EMPTY, EMPTY, EMPTY]] = EMPTY ∧
    check_win emptyBoard = EMPTY := by
  decide

/-- C3: the claim says every free cell is assigned the reference recurrence
value.  In the code, a placement scored as an immediate win is never
reverted (`continue` skips the `place(move, EMPTY)`), so later cells are
scored on a corrupted board.  On the board `[[X,X,-],[-,-,-],[O,O,-]]` with
`X` to move, the code values every free cell `1`, while the recurrence from
the spec values `(1,0)`, `(1,1)`, `(1,2)` as `-1` (after such a placement
`O` answers `(2,2)` and wins). -/
theorem C3_position_values_skips_revert :
    MinimaxAgent.position_values [[X, X, EMPTY], [EMPTY, EMPTY, EMPTY], [O, O, EMPTY]] X =
      [(⟨0, 2⟩, 1), (⟨1, 0⟩, 1), (⟨1, 1⟩, 1), (⟨1, 2⟩, 1), (⟨2, 2⟩, 1)] ∧
    spec_position_values 5 [[X, X, EMPTY], [EMPTY, EMPTY, EMPTY], [O, O, EMPTY]] X =
      [(⟨0, 2⟩, 1), (⟨1, 0⟩, -1), (⟨1, 1⟩, -1), (⟨1, 2⟩, -1), (⟨2, 2⟩, 1)] := by
  decide

/-- C8 counterexample: with no win, no draw and both moves absent the claim
expects the referee to return `none`; on the empty board the referee
instead penalizes `X`, because `whose_turn` is total and the skipped-turn
check always fires for the player it names. -/
theorem C8_counterexample :
    check_win emptyBoard = EMPTY ∧ boardFull emptyBoard = false ∧
    RegularReferee.step emptyBoard none none = some Judgement.X_PENALTY := by
  decide

/-- C8 amended: on a board with no win and no draw, when neither player
submitted a move the strict referee penalizes the player the histogram turn
rule names, never returning `none`. -/
theorem C8_no_moves_always_penalty (b : Board)
    (hx : check_win b ≠ X) (ho : check_win b ≠ O)
    (hd : ¬(boardFull b = true ∧ check_win b = EMPTY)) :
    RegularReferee.step b none none =
      some (if whose_turn b = X then Judgement.X_PENALTY else Judgement.O_PENALTY) := by
  have hwx : (check_win b == X) = false := by simp [hx]
  have hwo : (check_win b == O) = false := by simp [ho]
  have hdr : (boardFull b && (check_win b == EMPTY)) = false := by
    cases hB : boardFull b with
    | false => rfl
    | true =>
      simp only [hB, true_and] at hd
      simp [hd]
  unfold RegularReferee.step
  simp only [badMark, onOccupied, Option.isSome_none, Option.isNone_none, hwx, hwo, hdr,
    Bool.false_and, Bool.true_and, if_false, Bool.false_eq_true]
  by_cases ht : histCount b X ≤ histCount b O
  · have hwt : whose_turn b = X := by simp [whose_turn, ht]
    simp [hwt, X, O]
  · have hwt : whose_turn b = O := by simp [whose_turn, ht]
    simp [hwt, X, O]

/-- C8 witness for the amended statement, at the empty board. -/
theorem C8_no_moves_always_penalty_witness :
    RegularReferee.step emptyBoard none none =
      some (if whose_turn emptyBoard = X then Judgement.X_PENALTY else Judgement.O_PENALTY) :=
  C8_no_moves_always_penalty emptyBoard (by decide) (by decide) (by decide)

/-- C4: the referee's step equals first-match evaluation of its eleven
checks in the fixed source order (wrong mark for `X` then `O`, occupied
cell, out of turn, win for `X` then `O`, draw, skipped turn), and whenever
any of the six illegal-move conditions holds the result is a penalty — in
particular on a board that also carries a completed winning line the
penalty is returned rather than a `WINS` outcome. -/
theorem C4_referee_priority :
    (∀ b xm om, RegularReferee.step b xm om = firstMatch (refChecks b xm om)) ∧
    (∀ b xm om,
      (badMark xm X || badMark om O || onOccupied b xm || onOccupied b om ||
        (xm.isSome && (whose_turn b == O)) || (om.isSome && (whose_turn b == X))) = true →
      (∃ p, p ≠ EMPTY ∧ lineComplete b p) →
      RegularReferee.step b xm om = some Judgement.X_PENALTY ∨
      RegularReferee.step b xm om = some Judgement.O_PENALTY) := by
  constructor
  · intro b xm om
    rfl
  · intro b xm om hill _hwin
    cases h1 : badMark xm X with
    | true => exact Or.inl (by simp [RegularReferee.step, h1])
    | false =>
    cases h2 : badMark om O with
    | true => exact Or.inr (by simp [RegularReferee.step, h1, h2])
    | false =>
    cases h3 : onOccupied b xm with
    | true => exact Or.inl (by simp [RegularReferee.step, h1, h2, h3])
    | false =>
    cases h4 : onOccupied b om with
    | true => exact Or.inr (by simp [RegularReferee.step, h1, h2, h3, h4])
    | false =>
    cases h5 : xm.isSome && (whose_turn b == O) with
    | true => exact Or.inl (by simp [RegularReferee.step, h1, h2, h3, h4, h5])
    | false =>
    cases h6 : om.isSome && (whose_turn b == X) with
    | true => exact Or.inr (by simp [RegularReferee.step, h1, h2, h3, h4, h5, h6])
    | false =>
      simp [h1, h2, h3, h4, h5, h6] at hill

/-- C4 witness: a board whose first row is a completed `X` line while `X`
also submits a move onto an occupied cell; the referee answers with a
penalty, not `X_WINS`. -/
theorem C4_referee_priority_witness :
    RegularReferee.step [[X, X, X], [O, O, EMPTY], [EMPTY, EMPTY, EMPTY]]
        (some ⟨⟨0, 0⟩, X⟩) none = some Judgement.X_PENALTY ∨
    RegularReferee.step [[X, X, X], [O, O, EMPTY], [EMPTY, EMPTY, EMPTY]]
        (some ⟨⟨0, 0⟩, X⟩) none = some Judgement.O_PENALTY :=
  C4_referee_priority.2 [[X, X, X], [O, O, EMPTY], [EMPTY, EMPTY, EMPTY]]
    (some ⟨⟨0, 0⟩, X⟩) none (by decide) ⟨X, by decide, by decide⟩

/-- C7: in a simulation step the referee is consulted before any move is
applied: a returned judgement leaves the board exactly as it was, otherwise
the submitted moves are applied, `X`'s first then `O`'s, so two moves on
the same cell leave `O`'s mark. -/
theorem C7_step_application :
    (∀ b xm om j, RegularReferee.step b xm om = some j →
      (Simulator.step RegularReferee.step b xm om).2 = b) ∧
    (∀ b xm om, RegularReferee.step b xm om = none →
      Simulator.step RegularReferee.step b xm om = (none, applyMoves b xm om)) ∧
    (∀ b (c : Coordinate) p1 p2, c.row < 3 → c.col < 3 → ValidBoard b →
      Board.cell (applyMoves b (some ⟨c, p1⟩) (some ⟨c, p2⟩)) c.row c.col = p2) := by
  refine ⟨?_, ?_, ?_⟩
  · intro b xm om j h
    simp [Simulator.step, h]
  · intro b xm om h
    simp [Simulator.step, h]
  · rintro b ⟨r, c⟩ p1 p2 hr hc ⟨a0, a1, a2, a3, a4, a5, a6, a7, a8, rfl⟩
    interval_cases r <;> interval_cases c <;> rfl

/-- C7 witness: both players target the centre of the empty board and the
referee raises no outcome-free objection in this call shape; after
application the centre holds `O`'s mark. -/
theorem C7_step_application_witness :
    Board.cell (applyMoves emptyBoard (some ⟨⟨1, 1⟩, X⟩) (some ⟨⟨1, 1⟩, O⟩)) 1 1 = O :=
  C7_step_application.2.2 emptyBoard ⟨1, 1⟩ X O (by decide) (by decide)
    ⟨EMPTY, EMPTY, EMPTY, EMPTY, EMPTY, EMPTY, EMPTY, EMPTY, EMPTY, rfl⟩

/-- State-passing form of `RandomAgent.step`: the simulator's board is
passed in and handed back; the agent only reads it. -/
def RandomAgent.stepB (k player : Nat) (b : Board) : Option Move × Board :=
  (RandomAgent.step k player b, b)

/-- State-passing form of `OneStepAheadAgent.step`: every `place` in the
source acts on `imagined_board = board.copy()`, which in this embedding is
a separate value threaded through `winScan`, so the live board comes back
as it went in. -/
def OneStepAheadAgent.stepB (k player : Nat) (b : Board) : Option Move × Board :=
  (OneStepAheadAgent.step k player b, b)

/-- State-passing form of `MinimaxAgent.step`: `position_values` copies the
board at every level (`imagined_board = board.copy()`) and mutates only the
copies, so the live board comes back as it went in. -/
def MinimaxAgent.stepB (k player : Nat) (b : Board) : Option Move × Board :=
  (MinimaxAgent.step k player b, b)

/-- State-passing form of `NoRulesAgent.step`: the agent never touches (or
even reads) the board, so the live board comes back as it went in. -/
def NoRulesAgent.stepB (kt kr kc kp player : Nat) (b : Board) : Option Move × Board :=
  (NoRulesAgent.step kt kr kc kp player b, b)

/-- C10: a `decide` call of any of the four agent variants returns the
live board unchanged; hypothetical placements happen only on the scratch
copies inside the search. -/
theorem C10_decide_preserves_board :
    ∀ k kt kr kc kp player b,
      (RandomAgent.stepB k player b).2 = b ∧
      (OneStepAheadAgent.stepB k player b).2 = b ∧
      (MinimaxAgent.stepB k player b).2 = b ∧
      (NoRulesAgent.stepB kt kr kc kp player b).2 = b := by
  intro k kt kr kc kp player b
  exact ⟨rfl, rfl, rfl, rfl⟩

/-- Cell values are marks or `EMPTY`; every board the program builds
satisfies this. -/
def CellsBounded (b : Board) : Prop :=
  ∀ v ∈ Board.cells b, v < 3

lemma count_set_aux (l : List Nat) :
    ∀ (n v w : Nat), l.getD n 3 = EMPTY →
      (l.set n v).count w + (if w = EMPTY then 1 else 0) =
        l.count w + (if w = v then 1 else 0) := by
  induction l with
  | nil =>
    intro n v w h
    simp [List.getD] at h
    exact absurd h (by decide)
  | cons a t ih =>
    intro n v w h
    cases n with
    | zero =>
      simp only [List.getD_cons_zero] at h
      subst h
      simp only [List.set_cons_zero, List.count_cons, beq_iff_eq]
      by_cases h1 : w = EMPTY
      · subst h1
        by_cases h2 : v = EMPTY
        · subst h2
          simp
        · have h2s : ¬(EMPTY = v) := fun hh => h2 hh.symm
          simp [h2, h2s]
      · have h1s : ¬(EMPTY = w) := fun hh => h1 hh.symm
        by_cases h2 : w = v
        · subst h2
          simp [h1, h1s]
        · have h2s : ¬(v = w) := fun hh => h2 hh.symm
          simp [h1, h1s, h2, h2s]
    | succ n =>
      simp only [List.getD_cons_succ] at h
      simp only [List.set_cons_succ, List.count_cons]
      have := ih n v w h
      omega

lemma cells_place (b : Board) (hb : ValidBoard b) (r c : Nat)
    (hr : r < 3) (hc : c < 3) (v : Nat) :
    Board.cells (Board.place b ⟨r, c⟩ v) = (Board.cells b).set (3 * r + c) v := by
  obtain ⟨a0, a1, a2, a3, a4, a5, a6, a7, a8, rfl⟩ := hb
  interval_cases r <;> interval_cases c <;> rfl

lemma cell_getD (b : Board) (hb : ValidBoard b) (r c : Nat)
    (hr : r < 3) (hc : c < 3) :
    Board.cell b r c = (Board.cells b).getD (3 * r + c) 3 := by
  obtain ⟨a0, a1, a2, a3, a4, a5, a6, a7, a8, rfl⟩ := hb
  interval_cases r <;> interval_cases c <;> rfl

/-- Replacing the content of an `EMPTY` cell shifts the histogram: one
occurrence of `EMPTY` is traded for one occurrence of the placed value. -/
lemma histCount_place (b : Board) (hb : ValidBoard b) (r c : Nat)
    (hr : r < 3) (hc : c < 3) (hcell : Board.cell b r c = EMPTY) (v w : Nat) :
    histCount (Board.place b ⟨r, c⟩ v) w + (if w = EMPTY then 1 else 0) =
      histCount b w + (if w = v then 1 else 0) := by
  have h1 := cells_place b hb r c hr hc v
  have h2 := cell_getD b hb r c hr hc
  rw [h2] at hcell
  simp only [histCount, h1]
  exact count_set_aux (Board.cells b) (3 * r + c) v w hcell

lemma place_valid (b : Board) (hb : ValidBoard b) (r c : Nat)
    (hr : r < 3) (hc : c < 3) (v : Nat) :
    ValidBoard (Board.place b ⟨r, c⟩ v) := by
  obtain ⟨a0, a1, a2, a3, a4, a5, a6, a7, a8, rfl⟩ := hb
  interval_cases r <;> interval_cases c <;>
    exact ⟨_, _, _, _, _, _, _, _, _, rfl⟩

lemma place_bounded (b : Board) (hb : ValidBoard b) (r c : Nat)
    (hr : r < 3) (hc : c < 3) (v : Nat) (hv : v < 3) (hcb : CellsBounded b) :
    CellsBounded (Board.place b ⟨r, c⟩ v) := by
  intro w hw
  rw [cells_place b hb r c hr hc v] at hw
  rcases List.mem_or_eq_of_mem_set hw with h | rfl
  · exact hcb w h
  · exact hv

lemma cell_range (b : Board) (hb : ValidBoard b) (r c : Nat)
    (hcell : Board.cell b r c = EMPTY) : r < 3 ∧ c < 3 := by
  obtain ⟨a0, a1, a2, a3, a4, a5, a6, a7, a8, rfl⟩ := hb
  rcases r with _ | _ | _ | r <;> rcases c with _ | _ | _ | c <;>
    first
      | exact ⟨by omega, by omega⟩
      | (exfalso; simp [Board.cell, EMPTY] at hcell)

/-- The board reached from a fresh board by alternating legal play: `X`
starts, each move fills an `EMPTY` in-range cell with the mover's mark, and
the turn passes to the other player. -/
inductive Reach : Board → Nat → Prop where
  | init : Reach emptyBoard X
  | move (b : Board) (p : Nat) (c : Coordinate) :
      Reach b p → c.row < 3 → c.col < 3 →
      Board.cell b c.row c.col = EMPTY →
      Reach (Board.place b c p) (otherPlayer p)

lemma reach_invariant (b : Board) (p : Nat) (h : Reach b p) :
    ValidBoard b ∧ CellsBounded b ∧
      ((p = X ∧ histCount b X = histCount b O) ∨
        (p = O ∧ histCount b X = histCount b O + 1)) := by
  induction h with
  | init =>
    refine ⟨⟨EMPTY, EMPTY, EMPTY, EMPTY, EMPTY, EMPTY, EMPTY, EMPTY, EMPTY, rfl⟩, ?_, ?_⟩
    · intro v hv
      simp [Board.cells, emptyBoard, EMPTY] at hv
      omega
    · exact Or.inl ⟨rfl, by decide⟩
  | move b p c hre hr hc hcell ih =>
    obtain ⟨hvb, hcb, hinv⟩ := ih
    obtain ⟨cr, cc⟩ := c
    refine ⟨place_valid b hvb cr cc hr hc p, ?_, ?_⟩
    · exact place_bounded b hvb cr cc hr hc p
        (by rcases hinv with ⟨rfl, _⟩ | ⟨rfl, _⟩ <;> decide) hcb
    · have hX := histCount_place b hvb cr cc hr hc hcell p X
      have hO := histCount_place b hvb cr cc hr hc hcell p O
      rcases hinv with ⟨rfl, hcnt⟩ | ⟨rfl, hcnt⟩
      · refine Or.inr ⟨by decide, ?_⟩
        simp only [X, O, EMPTY] at hX hO hcnt ⊢
        simp at hX hO
        omega
      · refine Or.inl ⟨by decide, ?_⟩
        simp only [X, O, EMPTY] at hX hO hcnt ⊢
        simp at hX hO
        omega

/-- C9: on every board reachable by alternating legal play from the empty
board, the histogram turn rule names exactly the player whose move is
next. -/
theorem C9_turn_rule (b : Board) (p : Nat) (h : Reach b p) : whose_turn b = p := by
  rcases (reach_invariant b p h).2.2 with ⟨rfl, hcnt⟩ | ⟨rfl, hcnt⟩
  · simp [whose_turn, hcnt]
  · unfold whose_turn
    rw [if_neg (by omega)]

/-- C9 witness: after `X`'s opening move at the corner it is `O`'s turn. -/
theorem C9_turn_rule_witness :
    whose_turn (Board.place emptyBoard ⟨0, 0⟩ X) = otherPlayer X :=
  C9_turn_rule _ _ (Reach.move emptyBoard X ⟨0, 0⟩ Reach.init
    (by decide) (by decide) (by decide))

/-- The four pre-move checks shared by the three rule-respecting agents, as
the disjunction of the conditions under which the `step` chain declines. -/
def declines (player : Nat) (b : Board) : Prop :=
  check_win b = player ∨
  (check_win b ≠ player ∧ check_win b ≠ EMPTY) ∨
  emptyCells b = 0 ∨
  (histCount b X ≤ histCount b O ∧ player = O) ∨
  (histCount b O < histCount b X ∧ player = X)

lemma pvLoop_keys (rec : Board → Nat → List (Coordinate × Int)) (p : Nat) :
    ∀ (ms : List Coordinate) (ib : Board), (pvLoop rec p ms ib).map Prod.fst = ms := by
  intro ms
  induction ms with
  | nil => intro ib; rfl
  | cons mv rest ih =>
    intro ib
    simp only [pvLoop]
    split_ifs <;> simp [ih]

lemma fs_mem (b : Board) (mv : Coordinate) (h : mv ∈ free_spots b) :
    Board.cell b mv.row mv.col = EMPTY := by
  simp only [free_spots, List.mem_flatten, List.mem_map] at h
  obtain ⟨l, ⟨r, hr, rfl⟩, hm⟩ := h
  simp only [List.mem_filterMap] at hm
  obtain ⟨c, hc, hcell⟩ := hm
  split_ifs at hcell with hh
  injection hcell with hcell
  subst hcell
  exact hh

lemma fs_complete (b : Board) (r c : Nat) (hr : r < 3) (hc : c < 3)
    (h : Board.cell b r c = EMPTY) : (⟨r, c⟩ : Coordinate) ∈ free_spots b := by
  simp only [free_spots, List.mem_flatten, List.mem_map]
  refine ⟨_, ⟨r, by simpa using hr, rfl⟩, ?_⟩
  simp only [List.mem_filterMap]
  exact ⟨c, by simpa using hc, by simp [h]⟩

lemma fs_nonempty (b : Board) (hb : ValidBoard b) (hne : emptyCells b ≠ 0) :
    free_spots b ≠ [] := by
  have hmem : EMPTY ∈ Board.cells b := by
    have hpos : 0 < (Board.cells b).count EMPTY := Nat.pos_of_ne_zero hne
    exact List.count_pos_iff.mp hpos
  obtain ⟨a0, a1, a2, a3, a4, a5, a6, a7, a8, rfl⟩ := hb
  simp only [Board.cells, List.flatten, List.append_nil, List.cons_append,
    List.nil_append, List.mem_cons, List.not_mem_nil, or_false] at hmem
  rcases hmem with h | h | h | h | h | h | h | h | h
  · exact List.ne_nil_of_mem (fs_complete _ 0 0 (by omega) (by omega) h.symm)
  · exact List.ne_nil_of_mem (fs_complete _ 0 1 (by omega) (by omega) h.symm)
  · exact List.ne_nil_of_mem (fs_complete _ 0 2 (by omega) (by omega) h.symm)
  · exact List.ne_nil_of_mem (fs_complete _ 1 0 (by omega) (by omega) h.symm)
  · exact List.ne_nil_of_mem (fs_complete _ 1 1 (by omega) (by omega) h.symm)
  · exact List.ne_nil_of_mem (fs_complete _ 1 2 (by omega) (by omega) h.symm)
  · exact List.ne_nil_of_mem (fs_complete _ 2 0 (by omega) (by omega) h.symm)
  · exact List.ne_nil_of_mem (fs_complete _ 2 1 (by omega) (by omega) h.symm)
  · exact List.ne_nil_of_mem (fs_complete _ 2 2 (by omega) (by omega) h.symm)

lemma getD_mod_mem (l : List Coordinate) (hl : l ≠ []) (k : Nat) (d : Coordinate) :
    l.getD (k % l.length) d ∈ l := by
  have hpos : 0 < l.length := List.length_pos.mpr hl
  have hlt : k % l.length < l.length := Nat.mod_lt _ hpos
  rw [List.getD_eq_getElem l d hlt]
  exact List.getElem_mem hlt

lemma winScan_mem (p : Nat) :
    ∀ (ms : List Coordinate) (ib : Board) (mv : Coordinate),
      winScan p ms ib = some mv → mv ∈ ms := by
  intro ms
  induction ms with
  | nil => intro ib mv h; cases h
  | cons a rest ih =>
    intro ib mv h
    simp only [winScan] at h
    split_ifs at h
    · injection h with h
      subst h
      exact List.mem_cons_self a rest
    · exact List.mem_cons_of_mem _ (ih _ _ h)

lemma foldl_max_mem : ∀ (vs : List Int) (v : Int), vs.foldl max v ∈ v :: vs := by
  intro vs
  induction vs with
  | nil => intro v; simp
  | cons w ws ih =>
    intro v
    simp only [List.foldl_cons]
    rcases max_choice v w with hm | hm
    · rw [hm]
      rcases List.mem_cons.mp (ih v) with h | h <;> simp [h]
    · rw [hm]
      rcases List.mem_cons.mp (ih w) with h | h <;> simp [h]

lemma listMax_mem (l : List Int) (hl : l ≠ []) : listMax l ∈ l := by
  cases l with
  | nil => exact absurd rfl hl
  | cons v vs => exact foldl_max_mem vs v

lemma random_none_iff (k player : Nat) (b : Board) :
    RandomAgent.step k player b = none ↔ declines player b := by
  simp only [RandomAgent.step]
  split_ifs with h1 h2 h3 h4 h5
  · exact ⟨fun _ => Or.inl h1, fun _ => rfl⟩
  · exact ⟨fun _ => Or.inr (Or.inl ⟨h1, h2⟩), fun _ => rfl⟩
  · exact ⟨fun _ => Or.inr (Or.inr (Or.inl h3)), fun _ => rfl⟩
  · exact ⟨fun _ => Or.inr (Or.inr (Or.inr (Or.inl h4))), fun _ => rfl⟩
  · exact ⟨fun _ => Or.inr (Or.inr (Or.inr (Or.inr h5))), fun _ => rfl⟩
  · constructor
    · intro h
      cases h
    · rintro (h | ⟨ha, hb2⟩ | h | h | h)
      · exact absurd h h1
      · exact absurd hb2 h2
      · exact absurd h h3
      · exact absurd h h4
      · exact absurd h h5

lemma random_some (k player : Nat) (b : Board) (hb : ValidBoard b) (m : Move)
    (h : RandomAgent.step k player b = some m) :
    m.player = player ∧ Board.cell b m.coordinate.row m.coordinate.col = EMPTY := by
  simp only [RandomAgent.step] at h
  split_ifs at h with h1 h2 h3 h4 h5
  injection h with h
  subst h
  refine ⟨rfl, ?_⟩
  have hmem := getD_mod_mem (free_spots b) (fs_nonempty b hb h3) k ⟨0, 0⟩
  exact fs_mem b _ hmem

lemma onestep_none_iff (k player : Nat) (b : Board) :
    OneStepAheadAgent.step k player b = none ↔ declines player b := by
  simp only [OneStepAheadAgent.step]
  split_ifs with h1 h2 h3 h4 h5
  · exact ⟨fun _ => Or.inl h1, fun _ => rfl⟩
  · exact ⟨fun _ => Or.inr (Or.inl ⟨h1, h2⟩), fun _ => rfl⟩
  · exact ⟨fun _ => Or.inr (Or.inr (Or.inl h3)), fun _ => rfl⟩
  · exact ⟨fun _ => Or.inr (Or.inr (Or.inr (Or.inl h4))), fun _ => rfl⟩
  · exact ⟨fun _ => Or.inr (Or.inr (Or.inr (Or.inr h5))), fun _ => rfl⟩
  · constructor
    · intro hnone
      exfalso
      rcases hw1 : winScan player (free_spots b) b with _ | mv1 <;> rw [hw1] at hnone
      · rcases hw2 : winScan (otherPlayer player) (free_spots b) b with _ | mv2 <;>
          rw [hw2] at hnone <;> cases hnone
      · cases hnone
    · rintro (h | ⟨ha, hb2⟩ | h | h | h)
      · exact absurd h h1
      · exact absurd hb2 h2
      · exact absurd h h3
      · exact absurd h h4
      · exact absurd h h5

lemma onestep_some (k player : Nat) (b : Board) (hb : ValidBoard b) (m : Move)
    (h : OneStepAheadAgent.step k player b = some m) :
    m.player = player ∧ Board.cell b m.coordinate.row m.coordinate.col = EMPTY := by
  simp only [OneStepAheadAgent.step] at h
  split_ifs at h with h1 h2 h3 h4 h5
  rcases hw1 : winScan player (free_spots b) b with _ | mv1 <;> rw [hw1] at h
  · rcases hw2 : winScan (otherPlayer player) (free_spots b) b with _ | mv2 <;> rw [hw2] at h
    · injection h with h
      subst h
      refine ⟨rfl, ?_⟩
      exact fs_mem b _ (getD_mod_mem (free_spots b) (fs_nonempty b hb h3) k ⟨0, 0⟩)
    · injection h with h
      subst h
      exact ⟨rfl, fs_mem b _ (winScan_mem _ _ _ _ hw2)⟩
  · injection h with h
    subst h
    exact ⟨rfl, fs_mem b _ (winScan_mem _ _ _ _ hw1)⟩

lemma minimax_keys (b : Board) (player : Nat) (hne : emptyCells b ≠ 0) :
    (MinimaxAgent.position_values b player).map Prod.fst = free_spots b := by
  unfold MinimaxAgent.position_values
  rcases hE : emptyCells b with _ | n
  · exact absurd hE hne
  · simp only [pvF]
    exact pvLoop_keys _ _ _ _

lemma minimax_cands_sub (b : Board) (player : Nat) (hne : emptyCells b ≠ 0) :
    ∀ mv ∈ ((MinimaxAgent.position_values b player).filter fun e =>
        e.2 == listMax ((MinimaxAgent.position_values b player).map Prod.snd)).map Prod.fst,
      mv ∈ free_spots b := by
  intro mv hmv
  rw [← minimax_keys b player hne]
  simp only [List.mem_map] at hmv ⊢
  obtain ⟨e, he, rfl⟩ := hmv
  exact ⟨e, List.mem_of_mem_filter he, rfl⟩

lemma minimax_cands_ne (b : Board) (player : Nat) (hb : ValidBoard b)
    (hne : emptyCells b ≠ 0) :
    ((MinimaxAgent.position_values b player).filter fun e =>
      e.2 == listMax ((MinimaxAgent.position_values b player).map Prod.snd)).map Prod.fst ≠ [] := by
  have hvne : MinimaxAgent.position_values b player ≠ [] := by
    intro hnil
    have := minimax_keys b player hne
    rw [hnil] at this
    exact fs_nonempty b hb hne this.symm
  have hmapne : (MinimaxAgent.position_values b player).map Prod.snd ≠ [] := by
    simpa using hvne
  have hmem := listMax_mem _ hmapne
  simp only [List.mem_map] at hmem
  obtain ⟨e, he, hesnd⟩ := hmem
  have : e ∈ (MinimaxAgent.position_values b player).filter fun x =>
      x.2 == listMax ((MinimaxAgent.position_values b player).map Prod.snd) := by
    rw [List.mem_filter]
    exact ⟨he, by simp [hesnd]⟩
  simpa using List.ne_nil_of_mem (List.mem_map_of_mem Prod.fst this)

lemma minimax_none_iff (k player : Nat) (b : Board) :
    MinimaxAgent.step k player b = none ↔ declines player b := by
  simp only [MinimaxAgent.step]
  split_ifs with h1 h2 h3 h4 h5
  · exact ⟨fun _ => Or.inl h1, fun _ => rfl⟩
  · exact ⟨fun _ => Or.inr (Or.inl ⟨h1, h2⟩), fun _ => rfl⟩
  · exact ⟨fun _ => Or.inr (Or.inr (Or.inl h3)), fun _ => rfl⟩
  · exact ⟨fun _ => Or.inr (Or.inr (Or.inr (Or.inl h4))), fun _ => rfl⟩
  · exact ⟨fun _ => Or.inr (Or.inr (Or.inr (Or.inr h5))), fun _ => rfl⟩
  · constructor
    · intro h
      cases h
    · rintro (h | ⟨ha, hb2⟩ | h | h | h)
      · exact absurd h h1
      · exact absurd hb2 h2
      · exact absurd h h3
      · exact absurd h h4
      · exact absurd h h5

lemma minimax_some (k player : Nat) (b : Board) (hb : ValidBoard b) (m : Move)
    (h : MinimaxAgent.step k player b = some m) :
    m.player = player ∧ Board.cell b m.coordinate.row m.coordinate.col = EMPTY := by
  simp only [MinimaxAgent.step] at h
  split_ifs at h with h1 h2 h3 h4 h5
  injection h with h
  subst h
  refine ⟨rfl, ?_⟩
  apply fs_mem
  apply minimax_cands_sub b player h3
  exact getD_mod_mem _ (minimax_cands_ne b player hb h3) k ⟨0, 0⟩

/-- C6: each rule-respecting agent declines (returns `none`) exactly when
one of the four pre-move checks fires — own win, opponent win, full board,
or the histogram turn rule naming the other player — and otherwise returns
a move carrying its own mark on an `EMPTY` cell of the input board. -/
theorem C6_agent_prechecks (k player : Nat) (b : Board) (hb : ValidBoard b) :
    ((RandomAgent.step k player b = none ↔ declines player b) ∧
      ∀ m, RandomAgent.step k player b = some m →
        m.player = player ∧ Board.cell b m.coordinate.row m.coordinate.col = EMPTY) ∧
    ((OneStepAheadAgent.step k player b = none ↔ declines player b) ∧
      ∀ m, OneStepAheadAgent.step k player b = some m →
        m.player = player ∧ Board.cell b m.coordinate.row m.coordinate.col = EMPTY) ∧
    ((MinimaxAgent.step k player b = none ↔ declines player b) ∧
      ∀ m, MinimaxAgent.step k player b = some m →
        m.player = player ∧ Board.cell b m.coordinate.row m.coordinate.col = EMPTY) :=
  ⟨⟨random_none_iff k player b, random_some k player b hb⟩,
   ⟨onestep_none_iff k player b, onestep_some k player b hb⟩,
   ⟨minimax_none_iff k player b, minimax_some k player b hb⟩⟩

/-- C6 witness: on the empty board with `X` to move the random agent does
not decline, matching the four checks all failing. -/
theorem C6_agent_prechecks_witness :
    RandomAgent.step 0 X emptyBoard = none ↔ declines X emptyBoard :=
  (C6_agent_prechecks 0 X emptyBoard
    ⟨EMPTY, EMPTY, EMPTY, EMPTY, EMPTY, EMPTY, EMPTY, EMPTY, EMPTY, rfl⟩).1.1

lemma refStep_none_inv (b : Board) (xm om : Option Move)
    (h : RegularReferee.step b xm om = none) :
    badMark xm X = false ∧ badMark om O = false ∧
    onOccupied b xm = false ∧ onOccupied b om = false ∧
    (xm.isSome && (whose_turn b == O)) = false ∧
    (om.isSome && (whose_turn b == X)) = false ∧
    (check_win b == X) = false ∧ (check_win b == O) = false ∧
    (boardFull b && (check_win b == EMPTY)) = false ∧
    (xm.isNone && (whose_turn b == X)) = false ∧
    (om.isNone && (whose_turn b == O)) = false := by
  cases h1 : badMark xm X with
  | true => simp [RegularReferee.step, h1] at h
  | false =>
  cases h2 : badMark om O with
  | true => simp [RegularReferee.step, h1, h2] at h
  | false =>
  cases h3 : onOccupied b xm with
  | true => simp [RegularReferee.step, h1, h2, h3] at h
  | false =>
  cases h4 : onOccupied b om with
  | true => simp [RegularReferee.step, h1, h2, h3, h4] at h
  | false =>
  cases h5 : xm.isSome && (whose_turn b == O) with
  | true => simp [RegularReferee.step, h1, h2, h3, h4, h5] at h
  | false =>
  cases h6 : om.isSome && (whose_turn b == X) with
  | true => simp [RegularReferee.step, h1, h2, h3, h4, h5, h6] at h
  | false =>
  cases h7 : check_win b == X with
  | true => simp [RegularReferee.step, h1, h2, h3, h4, h5, h6, h7] at h
  | false =>
  cases h8 : check_win b == O with
  | true => simp [RegularReferee.step, h1, h2, h3, h4, h5, h6, h7, h8] at h
  | false =>
  cases h9 : boardFull b && (check_win b == EMPTY) with
  | true => simp [RegularReferee.step, h1, h2, h3, h4, h5, h6, h7, h8, h9] at h
  | false =>
  cases h10 : xm.isNone && (whose_turn b == X) with
  | true => simp [RegularReferee.step, h1, h2, h3, h4, h5, h6, h7, h8, h9, h10] at h
  | false =>
  cases h11 : om.isNone && (whose_turn b == O) with
  | true => simp [RegularReferee.step, h1, h2, h3, h4, h5, h6, h7, h8, h9, h10, h11] at h
  | false =>
    exact ⟨rfl, rfl, rfl, rfl, rfl, rfl, rfl, rfl, rfl, rfl, rfl⟩

lemma refStep_none_move (b : Board) (xm om : Option Move)
    (h : RegularReferee.step b xm om = none) :
    ∃ m, ((xm = some m ∧ om = none) ∨ (xm = none ∧ om = some m)) ∧
      m.player = whose_turn b ∧
      Board.cell b m.coordinate.row m.coordinate.col = EMPTY ∧
      applyMoves b xm om = Board.place b m.coordinate m.player := by
  obtain ⟨h1, h2, h3, h4, h5, h6, h7, h8, h9, h10, h11⟩ := refStep_none_inv b xm om h
  by_cases ht : histCount b X ≤ histCount b O
  · have hwt : whose_turn b = X := by simp [whose_turn, ht]
    rw [hwt] at h5 h6 h10
    simp only [beq_self_eq_true, Bool.and_true] at h6 h10
    rcases hxm : xm with _ | m
    · rw [hxm] at h10
      simp at h10
    · rcases hom : om with _ | m2
      · rw [hxm] at h1 h3
        refine ⟨m, Or.inl ⟨rfl, rfl⟩, ?_, ?_, ?_⟩
        · rw [hwt]
          by_contra hne
          simp [badMark, hne] at h1
        · by_contra hne
          simp [onOccupied, hne] at h3
        · rfl
      · rw [hom] at h6
        simp at h6
  · have hwt : whose_turn b = O := by simp [whose_turn, ht]
    rw [hwt] at h5 h6 h11
    simp only [beq_self_eq_true, Bool.and_true] at h5 h11
    rcases hom : om with _ | m
    · rw [hom] at h11
      simp at h11
    · rcases hxm : xm with _ | m2
      · rw [hom] at h2 h4
        refine ⟨m, Or.inr ⟨rfl, rfl⟩, ?_, ?_, ?_⟩
        · rw [hwt]
          by_contra hne
          simp [badMark, hne] at h2
        · by_contra hne
          simp [onOccupied, hne] at h4
        · rfl
      · rw [hxm] at h5
        simp at h5

lemma boardFull_iff (b : Board) : boardFull b = true ↔ emptyCells b = 0 := by
  unfold boardFull emptyCells histCount
  rw [List.all_eq_true, List.count_eq_zero]
  constructor
  · intro h hmem
    exact absurd (h EMPTY hmem) (by simp)
  · intro h v hv
    simp only [bne_iff_ne, ne_eq]
    rintro rfl
    exact h hv

lemma check_win_lt (b : Board) (hb : ValidBoard b) (hcb : CellsBounded b) :
    check_win b < 3 := by
  obtain ⟨a0, a1, a2, a3, a4, a5, a6, a7, a8, rfl⟩ := hb
  unfold check_win
  split_ifs <;> first | decide | exact hcb _ (by simp [Board.cell, Board.cells])

lemma refStep_full_some (b : Board) (hb : ValidBoard b) (hcb : CellsBounded b)
    (hfull : emptyCells b = 0) (xm om : Option Move) :
    RegularReferee.step b xm om ≠ none := by
  intro h
  obtain ⟨h1, h2, h3, h4, h5, h6, h7, h8, h9, h10, h11⟩ := refStep_none_inv b xm om h
  have hf : boardFull b = true := (boardFull_iff b).mpr hfull
  have hcw := check_win_lt b hb hcb
  have h7' : check_win b ≠ X := by simpa using h7
  have h8' : check_win b ≠ O := by simpa using h8
  have h9' : check_win b ≠ EMPTY := by
    intro he
    rw [hf, he] at h9
    simp at h9
  simp only [X, O, EMPTY] at h7' h8' h9'
  omega

lemma sim_terminates (fx fo : Nat → Board → Option Move) :
    ∀ (fuel : Nat) (b : Board) (i : Nat), ValidBoard b → CellsBounded b →
      emptyCells b < fuel →
      ∃ j, Simulator.run RegularReferee.step fx fo fuel i b = some j := by
  intro fuel
  induction fuel with
  | zero => intro b i _ _ h; omega
  | succ f ih =>
    intro b i hvb hcb hlt
    rcases href : RegularReferee.step b (fx i b) (fo i b) with _ | j
    · obtain ⟨m, hshape, hpl, hcell, happ⟩ := refStep_none_move b _ _ href
      obtain ⟨hr3, hc3⟩ := cell_range b hvb _ _ hcell
      have hpXO : m.player = X ∨ m.player = O := by
        rw [hpl]
        unfold whose_turn
        split_ifs <;> simp
      have hvb' := place_valid b hvb _ _ hr3 hc3 m.player
      have hcb' := place_bounded b hvb _ _ hr3 hc3 m.player
        (by rcases hpXO with h | h <;> rw [h] <;> decide) hcb
      have hE := histCount_place b hvb _ _ hr3 hc3 hcell m.player EMPTY
      have hmix : ¬(EMPTY = m.player) := by
        rcases hpXO with h | h <;> rw [h] <;> decide
      rw [if_pos rfl, if_neg hmix] at hE
      have hlt' : emptyCells (Board.place b ⟨m.coordinate.row, m.coordinate.col⟩ m.player) < f := by
        simp only [emptyCells] at hlt ⊢
        omega
      have hco : (⟨m.coordinate.row, m.coordinate.col⟩ : Coordinate) = m.coordinate := rfl
      rw [hco] at hvb' hcb' hlt'
      obtain ⟨j, hj⟩ := ih _ (i + 1) hvb' hcb' hlt'
      refine ⟨j, ?_⟩
      simp only [Simulator.run, href]
      rw [happ]
      exact hj
    · exact ⟨j, by simp [Simulator.run, href]⟩

/-- C5: under the strict referee every game from a fresh board reaches a
judgement within ten referee calls for every pair of agents, because each
judgement-free step applies exactly one move — the on-turn player's, with
the correct mark, on an `EMPTY` cell — so at most nine placements can
happen before the board is full and the referee must rule. -/
theorem C5_strict_referee_terminates :
    (∀ fx fo : Nat → Board → Option Move,
      ∃ j, Simulator.run RegularReferee.step fx fo 10 0 emptyBoard = some j) ∧
    (∀ b xm om, RegularReferee.step b xm om = none →
      ∃ m, ((xm = some m ∧ om = none) ∨ (xm = none ∧ om = some m)) ∧
        m.player = whose_turn b ∧
        Board.cell b m.coordinate.row m.coordinate.col = EMPTY ∧
        applyMoves b xm om = Board.place b m.coordinate m.player) := by
  constructor
  · intro fx fo
    refine sim_terminates fx fo 10 emptyBoard 0
      ⟨EMPTY, EMPTY, EMPTY, EMPTY, EMPTY, EMPTY, EMPTY, EMPTY, EMPTY, rfl⟩ ?_ (by decide)
    intro v hv
    simp [Board.cells, emptyBoard, EMPTY] at hv
    omega
  · exact refStep_none_move

/-- C5 witness: on the empty board with only `X` submitting a corner move
the referee raises nothing, and that step applies exactly `X`'s move. -/
theorem C5_strict_referee_terminates_witness :
    ∃ m, (((some ⟨⟨0, 0⟩, X⟩ : Option Move) = some m ∧ (none : Option Move) = none) ∨
        ((some ⟨⟨0, 0⟩, X⟩ : Option Move) = none ∧ (none : Option Move) = some m)) ∧
      m.player = whose_turn emptyBoard ∧
      Board.cell emptyBoard m.coordinate.row m.coordinate.col = EMPTY ∧
      applyMoves emptyBoard (some ⟨⟨0, 0⟩, X⟩) none =
        Board.place emptyBoard m.coordinate m.player :=
  C5_strict_referee_terminates.2 emptyBoard (some ⟨⟨0, 0⟩, X⟩) none (by decide)

end TicTacToe
